import Mathlib

/-!
# Verification of the pkgsite page-serving layer

A shallow embedding, in Lean 4, of the URL-to-entity resolution algorithm
(`parseDetailsURLPath`, `constructPackageURL`, `inStdLib`), the
fetch-with-fallback policy (`fetchPackageOrModule`), the tab-selection
defaults, and the redistributability evaluator of the repository, together
with theorems settling the frozen claims about them.

Go strings are modelled as Lean `String`s; the Go standard-library string
operations used by the code (`strings.SplitN`, `strings.Split`,
`strings.Join`, `strings.TrimPrefix`, `strings.TrimSuffix`,
`strings.HasPrefix`, `strings.IndexByte`, `path.Dir`) are given explicit
structural-recursive models on `List Char` below.
-/

namespace PkgSite

/-! ## Go string primitives on `List Char` -/

/-- First occurrence split: `breakAt c s = some (pre, post)` when
`s = pre ++ c :: post` and `c ∉ pre`; `none` when `c` does not occur.
Models `strings.SplitN(s, c, 2)` (two parts) and `strings.IndexByte`. -/
def breakAt (c : Char) : List Char → Option (List Char × List Char)
  | [] => none
  | x :: xs =>
    if x = c then some ([], xs)
    else
      match breakAt c xs with
      | none => none
      | some (pre, post) => some (x :: pre, post)

/-- Models `strings.Split(s, c)` for a one-character separator:
splits around every occurrence of `c`; the empty string yields `[[]]`. -/
def goSplit (c : Char) : List Char → List (List Char)
  | [] => [[]]
  | x :: xs =>
    if x = c then [] :: goSplit c xs
    else
      match goSplit c xs with
      | [] => [[x]]
      | y :: ys => (x :: y) :: ys

/-- Models `strings.Join(parts, c)` for a one-character separator. -/
def goJoin (c : Char) : List (List Char) → List Char
  | [] => []
  | [x] => x
  | x :: y :: ys => x ++ c :: goJoin c (y :: ys)

/-- `stripLead pre s = some rest` iff `s = pre ++ rest`. -/
def stripLead : List Char → List Char → Option (List Char)
  | [], s => some s
  | _ :: _, [] => none
  | x :: xs, y :: ys => if x = y then stripLead xs ys else none

/-- Models `strings.TrimPrefix(s, pre)`: drops `pre` when it leads `s`. -/
def goTrimLead (pre s : List Char) : List Char :=
  (stripLead pre s).getD s

/-- Models `strings.HasPrefix(s, pre)`. -/
def goHasPre (pre s : List Char) : Bool :=
  (stripLead pre s).isSome

/-- Models `strings.TrimPrefix(s, "/")` as used on URL paths. -/
def trimLeadSlash (s : List Char) : List Char :=
  match s with
  | [] => []
  | x :: xs => if x = '/' then xs else x :: xs

/-- Models `strings.TrimSuffix(s, "/")` as used on URL paths. -/
def trimTrailSlash (s : List Char) : List Char :=
  if s.getLast? = some '/' then s.dropLast else s

/-! ## Sentinels and validity predicates -/

/-- `unknownModulePath` from `internal/frontend/details.go`: the sentinel
used when the module path cannot be determined from the URL alone. -/
def unknownModulePath : String := "<unknown>"

/-- Modelled from the spec: the fixed standard-library sentinel module path
(`stdlib.ModulePath`; the `internal/stdlib` package is absent from the
corpus). The standard library is served under the path `std`. -/
def stdlibModulePath : String := "std"

/-- Modelled from the spec: the `latest` sentinel version literal
(`internal.LatestVersion`; the `internal` package source is absent from the
corpus, the spec calls it "the `latest` sentinel literal"). -/
def latestVersion : String := "latest"

/-- Modelled from the spec: the character set admitted in an import-path
element by `module.CheckImportPath` (the vendored
`internal/thirdparty/module` package is absent from the corpus): ASCII
letters, digits, and limited punctuation. -/
def pathOK (c : Char) : Bool :=
  c = '+' || c = '-' || c = '.' || c = '_' || c = '~' || c.isAlphanum

/-- Modelled from the spec: `module.CheckImportPath`, deciding whether a
string is "a syntactically well-formed import path" (the vendored
`internal/thirdparty/module` package is absent from the corpus): the
slash-separated elements must all be nonempty and drawn from the admitted
character set. Returns `true` for a valid path (the Go function returns a
`nil` error). -/
def checkImportPath (p : String) : Bool :=
  (goSplit '/' p.data).all fun e => !e.isEmpty && e.all pathOK

/-- Modelled from the spec: `semver.IsValid` (the vendored
`internal/thirdparty/semver` package is absent from the corpus), deciding
whether a string is "a syntactically valid semantic version string": a
leading `v`, a dotted numeric core, and an optional pre-release or build
part introduced by `-` or `+`. -/
def semverIsValid (v : String) : Bool :=
  match v.data with
  | 'v' :: rest =>
    let core := rest.takeWhile fun c => c != '-' && c != '+'
    let nums := goSplit '.' core
    rest.all (fun c => c.isAlphanum || c = '.' || c = '-' || c = '+') &&
      decide (nums.length ≤ 3) &&
      nums.all (fun n => !n.isEmpty && n.all Char.isDigit)
  | _ => false

/-! ## The redistributability evaluator

The implementation (`licensesAreRedistributable` in the `internal`
package) is absent from the corpus; only its test,
`internal/license_test.go`, is present. The evaluator is therefore
modelled from the spec, with one point the spec leaves out fixed by the
repository's own test: the test case labelled "no redistributable license
at root" requires a single allow-listed license in a non-root directory to
yield `false`, so the evaluator additionally demands a license record in
the root directory. `licensesAreRedistributableMatchesTests` below checks
the model against every row of the test table. -/

/-- A license record: `internal.LicenseInfo`, as used by
`internal/license_test.go` (a detected license type and the file path,
relative to the module root, of the license file). -/
structure LicenseInfo where
  type : String
  filePath : String
deriving DecidableEq

/-- Models Go's `path.Dir` on the clean relative file paths license records
carry: all slash-separated segments except the last, `"."` for a bare file
name. -/
def licenseDir (fp : String) : String :=
  match (goSplit '/' fp.data).dropLast with
  | [] => "."
  | ps => ⟨goJoin '/' ps⟩

/-- Modelled from the spec (the implementation is absent from the corpus;
see the section comment): the allow-list of redistributable license types
is external configuration, injected here as the predicate `allow`. The
entity is redistributable iff every directory holding at least one record
holds an allow-listed one, and the root directory holds a record at all.
The root-directory requirement is fixed by the repository's test
`TestLicensesAreRedistributable`. -/
def licensesAreRedistributable (allow : String → Bool)
    (licenses : List LicenseInfo) : Bool :=
  (licenses.all fun l =>
    licenses.any fun l2 =>
      (licenseDir l2.filePath == licenseDir l.filePath) && allow l2.type) &&
  (licenses.any fun l => licenseDir l.filePath == ".")

/-- The rule as the spec words it (for comparison with
`licensesAreRedistributable`): every directory holding at least one record
holds an allow-listed one, and at least one record exists anywhere — with
no requirement on the root directory. -/
def specRedistributable (allow : String → Bool)
    (licenses : List LicenseInfo) : Bool :=
  (licenses.all fun l =>
    licenses.any fun l2 =>
      (licenseDir l2.filePath == licenseDir l.filePath) && allow l2.type) &&
  !licenses.isEmpty

/-- The allow-list the test table of `internal/license_test.go` relies on:
its rows treat `MIT`, `BSD-3-Clause` and `BSD-0-Clause` as
redistributable and `AGPL-3.0` as not. -/
def testAllow : String → Bool := fun t =>
  t == "MIT" || t == "BSD-3-Clause" || t == "BSD-0-Clause"

/-- The seven rows of `TestLicensesAreRedistributable` in
`internal/license_test.go`: each list of records with the expected
verdict. -/
def licenseTestTable : List (List LicenseInfo × Bool) :=
  [ ([⟨"MIT", "LICENSE"⟩], true),
    ([⟨"MIT", "bar/LICENSE"⟩], false),
    ([], false),
    ([⟨"AGPL-3.0", "LICENSE"⟩], false),
    ([⟨"BSD-3-Clause", "LICENSE"⟩, ⟨"MIT", "bar/LICENSE"⟩], true),
    ([⟨"BSD-3-Clause", "LICENSE"⟩, ⟨"AGPL-3.0", "foo/LICENSE"⟩,
      ⟨"MIT", "foo/bar/LICENSE"⟩], false),
    ([⟨"BSD-3-Clause", "LICENSE"⟩, ⟨"BSD-0-Clause", "LICENSE.txt"⟩,
      ⟨"AGPL-3.0", "foo/LICENSE"⟩, ⟨"MIT", "foo/COPYING"⟩], true) ]

/-! ## The path resolver (`parseDetailsURLPath` and friends) -/

/-- The triple returned by `parseDetailsURLPath`. -/
structure ResolvedPath where
  pkgPath : String
  modulePath : String
  version : String
deriving DecidableEq

/-- `inStdLib` from `internal/frontend/details.go`: the package belongs to
the standard library when the segment before the first `/` (or the whole
path when there is no `/`) contains no `.`. -/
def inStdLib (p : String) : Bool :=
  match breakAt '/' p.data with
  | some (pre, _) => !pre.contains '.'
  | none => !p.data.contains '.'

/-- The `@`-present branch of `parseDetailsURLPath`
(`internal/frontend/details.go`): `post` is the part after the first
`@`; the version is its piece up to the first `/` (`endParts[0]`), the
suffix the rest joined back (`strings.Join(endParts[1:], "/")`).
`goSplit` never returns `[]`, so `headI` models `endParts[0]`. -/
def parseWithVersion (basePath post : List Char) : Option ResolvedPath :=
  let endParts := goSplit '/' post
  let version : String := ⟨endParts.headI⟩
  let suffix := goJoin '/' endParts.tail
  if suffix = [] ∨ version = latestVersion then
    if checkImportPath ⟨basePath⟩ then
      some ⟨⟨basePath⟩, unknownModulePath, version⟩
    else none
  else
    let pkgPath := basePath ++ '/' :: suffix
    if checkImportPath ⟨pkgPath⟩ then
      some ⟨⟨pkgPath⟩, ⟨basePath⟩, version⟩
    else none

/-- `parseDetailsURLPath` from `internal/frontend/details.go`, before the
final standard-library override: split the URL path at the first `@`,
trim one leading and one trailing `/` from the part before it, and — when
an `@` is present — hand the remainder to `parseWithVersion`; the
resulting package path is validated. `none` models the non-nil error
return. -/
def parseDetailsURLPathBase (urlPath : String) : Option ResolvedPath :=
  match breakAt '@' urlPath.data with
  | none =>
    let basePath := trimTrailSlash (trimLeadSlash urlPath.data)
    if checkImportPath ⟨basePath⟩ then
      some ⟨⟨basePath⟩, unknownModulePath, latestVersion⟩
    else none
  | some (pre, post) =>
    parseWithVersion (trimTrailSlash (trimLeadSlash pre)) post

/-- The final step of `parseDetailsURLPath`: when `inStdLib` claims the
package path, the module path is overridden with the standard-library
sentinel. -/
def stdlibOverride (r : ResolvedPath) : ResolvedPath :=
  if inStdLib r.pkgPath then { r with modulePath := stdlibModulePath }
  else r

/-- `parseDetailsURLPath` from `internal/frontend/details.go`: the base
parse followed by the standard-library override of the module path. -/
def parseDetailsURLPath (urlPath : String) : Option ResolvedPath :=
  (parseDetailsURLPathBase urlPath).map stdlibOverride

/-- `constructPackageURL` from `internal/frontend/details.go`. -/
def constructPackageURL (pkgPath modulePath version : String) : String :=
  if version = latestVersion then "/" ++ pkgPath
  else if pkgPath = modulePath ∨ modulePath = stdlibModulePath then
    "/" ++ pkgPath ++ "@" ++ version
  else
    "/" ++ modulePath ++ "@" ++ version ++ "/" ++
      ⟨goTrimLead (modulePath.data ++ ['/']) pkgPath.data⟩

/-! ## The fetch-with-fallback policy (`fetchPackageOrModule`)

The lookup closure handed to `fetchPackageOrModule` is modelled as a
function from a version string to an optional error (`none` models a
`nil` error, i.e. success); its only property the policy inspects is
whether a returned error wraps `derrors.NotFound`. The exclusion check
`ds.IsExcluded` is modelled as its result: `Except.error` for a lookup
failure, `Except.ok b` for the verdict `b`. The result record also
carries the list of versions the lookup function was invoked with, in
order, so that statements about the lookups performed are expressible. -/

/-- Outcome of one `get` call: `notFound` models an error wrapping
`derrors.NotFound`, `other` any other non-nil error. -/
inductive GetErr
  | notFound
  | other
deriving DecidableEq

/-- An `errorPage` as populated by `fetchPackageOrModule` (the fields it
sets: `Message` and `SecondaryMessage`). -/
structure ErrorPage where
  message : String
  secondaryMessage : String
deriving DecidableEq

/-- Modelled from the spec: `suggestedSearch` (implementation absent from
the corpus) produces the secondary message of the invalid-version error
page for the package namespace; no claim depends on its wording. -/
def suggestedSearch (q : String) : String :=
  "To search for packages like \"" ++ q ++ "\", see the search page."

/-- Result of `fetchPackageOrModule`: the HTTP status code, the optional
error page, and the instrumented list of versions passed to `get`. -/
structure FetchResult where
  code : Nat
  epage : Option ErrorPage
  calls : List String
deriving DecidableEq

/-- `fetchPackageOrModule` from `internal/frontend/details.go`: reject a
version that is neither the latest sentinel nor valid semver
(`400 Bad Request`); report `404 Not Found` for an excluded path (and
`500` if the exclusion check itself fails); call `get version` — success
is `200 OK`, a non-not-found error `500`, not-found at the latest
sentinel `404`; otherwise retry with the latest sentinel — a second
failure is a bare `404`, success is `303 See Other` with an explanatory
error page. -/
def fetchPackageOrModule (ns path version : String)
    (isExcluded : Except Unit Bool) (get : String → Option GetErr) :
    FetchResult :=
  if version ≠ latestVersion ∧ semverIsValid version = false then
    { code := 400,
      epage := some
        { message := "\"" ++ version ++ "\" is not a valid semantic version.",
          secondaryMessage :=
            if ns = "pkg" then suggestedSearch path else "" },
      calls := [] }
  else
    match isExcluded with
    | .error _ => { code := 500, epage := none, calls := [] }
    | .ok true => { code := 404, epage := none, calls := [] }
    | .ok false =>
      match get version with
      | none => { code := 200, epage := none, calls := [version] }
      | some .other => { code := 500, epage := none, calls := [version] }
      | some .notFound =>
        if version = latestVersion then
          { code := 404, epage := none, calls := [version] }
        else
          match get latestVersion with
          | some _ =>
            { code := 404, epage := none, calls := [version, latestVersion] }
          | none =>
            let word := if ns = "mod" then "module" else "package"
            let urlPath := if ns = "mod" then "/mod/" ++ path else "/" ++ path
            { code := 303,
              epage := some
                { message :=
                    (if ns = "mod" then "Module" else "Package") ++ " " ++
                      path ++ "@" ++ version ++ " is not available.",
                  secondaryMessage :=
                    "There are other versions of this " ++ word ++
                      " that are! To view them, <a href=\"" ++ urlPath ++
                      "?tab=versions\">click here</a>.</p>" },
              calls := [version, latestVersion] }

/-- The lookup function used to witness C3: every specific version is
absent, the latest sentinel resolves. -/
def getSample : String → Option GetErr := fun v =>
  if v = latestVersion then none else some GetErr.notFound

/-! ## Tab registries and default tab selection -/

/-- `TabSettings` from `internal/frontend/details.go` (the template name
and display name are carried but no claim depends on them). -/
structure TabSettings where
  name : String
  displayName : String
  alwaysShowDetails : Bool
  templateName : String
deriving DecidableEq

/-- `packageTabSettings` from `internal/frontend/details.go`. -/
def packageTabSettings : List TabSettings :=
  [ ⟨"doc", "Doc", false, "pkg_doc.tmpl"⟩,
    ⟨"readme", "README", false, "readme.tmpl"⟩,
    ⟨"subdirectories", "Subdirectories", true, "subdirectories.tmpl"⟩,
    ⟨"versions", "Versions", true, "versions.tmpl"⟩,
    ⟨"imports", "Imports", true, "pkg_imports.tmpl"⟩,
    ⟨"importedby", "Imported By", true, "pkg_importedby.tmpl"⟩,
    ⟨"licenses", "Licenses", false, "licenses.tmpl"⟩ ]

/-- `moduleTabSettings` from `internal/frontend/details.go`. -/
def moduleTabSettings : List TabSettings :=
  [ ⟨"readme", "README", false, "readme.tmpl"⟩,
    ⟨"packages", "Packages", true, "subdirectories.tmpl"⟩,
    ⟨"versions", "Versions", true, "versions.tmpl"⟩,
    ⟨"licenses", "Licenses", false, "licenses.tmpl"⟩ ]

/-- `packageTabLookup`, the map built from `packageTabSettings` by the
package's `init` function, keyed by tab name. -/
def packageTabLookup (tab : String) : Option TabSettings :=
  packageTabSettings.find? fun s => s.name == tab

/-- `moduleTabLookup`, the map built from `moduleTabSettings`. -/
def moduleTabLookup (tab : String) : Option TabSettings :=
  moduleTabSettings.find? fun s => s.name == tab

/-- The tab-defaulting logic of `servePackagePage`
(`internal/frontend/details.go`): a requested tab present in the registry
is kept; otherwise the tab falls back to `doc` for a redistributable
package and `subdirectories` for a non-redistributable one. -/
def choosePackageTab (tab : String) (redistributable : Bool) : String :=
  match packageTabLookup tab with
  | some _ => tab
  | none => if redistributable then "doc" else "subdirectories"

/-- The tab-defaulting logic of `handleModuleDetails`
(`internal/frontend/details.go`): a requested tab present in the registry
is kept; otherwise the tab falls back to `readme` unconditionally. -/
def chooseModuleTab (tab : String) : String :=
  match moduleTabLookup tab with
  | some _ => tab
  | none => "readme"

/-! ## Routing of `/std` in `handlePackageDetails` -/

/-- The three ways `handlePackageDetails`
(`internal/frontend/details.go`) can dispatch a request before fetching:
serve the index page for `/`, hand the request to `handleModuleDetails`
for the standard-library aliases, or continue into
`parseDetailsURLPath`. -/
inductive PackageDetailsRoute
  | indexPage
  | moduleDetails
  | parsePath
deriving DecidableEq

/-- The dispatch of `handlePackageDetails`: `/` serves the index page;
a path equal to `/std` or starting with `/std@v` is handed to the module
handler; everything else proceeds to parsing. -/
def handlePackageDetailsRoute (urlPath : String) : PackageDetailsRoute :=
  if urlPath = "/" then .indexPage
  else if urlPath = "/std" ∨ goHasPre "/std@v".data urlPath.data then
    .moduleDetails
  else .parsePath

/-! ## Theorems -/

/-! ### Lemmas about the primitives -/

theorem goSplit_ne_nil (c : Char) (s : List Char) : goSplit c s ≠ [] := by
  induction s with
  | nil => simp [goSplit]
  | cons x xs ih =>
    simp only [goSplit]
    split
    · simp
    · split
      · simp
      · simp

theorem goSplit_no_sep {c : Char} {s : List Char} (h : c ∉ s) :
    goSplit c s = [s] := by
  induction s with
  | nil => rfl
  | cons x xs ih =>
    simp only [List.mem_cons, not_or] at h
    simp only [goSplit, if_neg (Ne.symm h.1), ih h.2]

theorem goSplit_cons_sep {c : Char} {a : List Char} (b : List Char)
    (h : c ∉ a) : goSplit c (a ++ c :: b) = a :: goSplit c b := by
  induction a with
  | nil => simp [goSplit]
  | cons x xs ih =>
    simp only [List.mem_cons, not_or] at h
    simp only [List.cons_append, goSplit, List.append_eq, if_neg (Ne.symm h.1),
      ih h.2]

theorem goSplit_append_sep (c : Char) (a : List Char) :
    goSplit c (a ++ [c]) = goSplit c a ++ [[]] := by
  induction a with
  | nil => simp [goSplit]
  | cons x xs ih =>
    simp only [List.cons_append, goSplit, List.append_eq, ih]
    split
    · rfl
    · cases h : goSplit c xs with
      | nil => exact absurd h (goSplit_ne_nil c xs)
      | cons y ys => simp [h]

theorem goJoin_goSplit (c : Char) (s : List Char) :
    goJoin c (goSplit c s) = s := by
  induction s with
  | nil => rfl
  | cons x xs ih =>
    simp only [goSplit]
    split
    · rename_i hx
      cases h : goSplit c xs with
      | nil => exact absurd h (goSplit_ne_nil c xs)
      | cons y ys =>
        rw [h] at ih
        simp only [goJoin, hx, List.nil_append, ih]
    · cases h : goSplit c xs with
      | nil => exact absurd h (goSplit_ne_nil c xs)
      | cons y ys =>
        rw [h] at ih
        cases ys with
        | nil => simp only [goJoin] at ih ⊢; rw [ih]
        | cons z zs => simp only [goJoin, List.cons_append] at ih ⊢; rw [ih]

/-- Every character of `s` is either the separator or lies in one of the
pieces of `goSplit c s`. -/
theorem mem_pieces_of_mem_goSplit {c x : Char} {s : List Char} (hx : x ∈ s) :
    x = c ∨ ∃ e ∈ goSplit c s, x ∈ e := by
  induction s with
  | nil => cases hx
  | cons y ys ih =>
    simp only [goSplit]
    rcases List.mem_cons.mp hx with hxy | hxs
    · subst hxy
      split
      · rename_i hy; exact Or.inl hy
      · cases h : goSplit c ys with
        | nil => exact absurd h (goSplit_ne_nil c ys)
        | cons z zs => exact Or.inr ⟨x :: z, by simp [h], by simp⟩
    · rcases ih hxs with hc | ⟨e, he, hxe⟩
      · exact Or.inl hc
      · split
        · exact Or.inr ⟨e, List.mem_cons_of_mem _ he, hxe⟩
        · cases h : goSplit c ys with
          | nil => exact absurd h (goSplit_ne_nil c ys)
          | cons z zs =>
            rw [h] at he
            rcases List.mem_cons.mp he with rfl | hin
            · exact Or.inr ⟨y :: e, by simp [h], List.mem_cons_of_mem _ hxe⟩
            · exact Or.inr ⟨e, by simp [h, hin], hxe⟩

theorem breakAt_none_of_not_mem {c : Char} {s : List Char} (h : c ∉ s) :
    breakAt c s = none := by
  induction s with
  | nil => rfl
  | cons x xs ih =>
    simp only [List.mem_cons, not_or] at h
    simp only [breakAt, if_neg (Ne.symm h.1), ih h.2]

theorem breakAt_append {c : Char} {a : List Char} (b : List Char)
    (h : c ∉ a) : breakAt c (a ++ c :: b) = some (a, b) := by
  induction a with
  | nil => simp [breakAt]
  | cons x xs ih =>
    simp only [List.mem_cons, not_or] at h
    simp only [List.cons_append, breakAt, List.append_eq, if_neg (Ne.symm h.1),
      ih h.2]

theorem stripLead_append (pre s : List Char) :
    stripLead pre (pre ++ s) = some s := by
  induction pre with
  | nil => rfl
  | cons x xs ih => simp [stripLead, ih]

theorem eq_append_of_stripLead {pre s r : List Char}
    (h : stripLead pre s = some r) : s = pre ++ r := by
  induction pre generalizing s with
  | nil =>
    simp only [stripLead, Option.some.injEq] at h
    simp [h]
  | cons x xs ih =>
    cases s with
    | nil => simp [stripLead] at h
    | cons y ys =>
      simp only [stripLead] at h
      split at h
      · rename_i hxy; subst hxy; simpa using ih h
      · cases h

theorem trimLeadSlash_eq_self {s : List Char} (h : s.head? ≠ some '/') :
    trimLeadSlash s = s := by
  cases s with
  | nil => rfl
  | cons x xs =>
    simp only [List.head?_cons, ne_eq, Option.some.injEq] at h
    simp only [trimLeadSlash, if_neg h]

theorem trimTrailSlash_eq_self {s : List Char} (h : s.getLast? ≠ some '/') :
    trimTrailSlash s = s := by
  simp only [trimTrailSlash, if_neg h]

/-! ### Consequences of import-path validity -/

theorem not_mem_of_checkImportPath {p : String} {x : Char}
    (h : checkImportPath p = true) (hx : pathOK x = false) (hxs : x ≠ '/') :
    x ∉ p.data := by
  intro hmem
  rcases mem_pieces_of_mem_goSplit (c := '/') hmem with hc | ⟨e, he, hxe⟩
  · exact hxs hc
  · simp only [checkImportPath, List.all_eq_true, Bool.and_eq_true] at h
    have := (h e he).2
    simp only [List.all_eq_true] at this
    rw [this x hxe] at hx
    cases hx

theorem at_not_mem_of_checkImportPath {p : String}
    (h : checkImportPath p = true) : '@' ∉ p.data :=
  not_mem_of_checkImportPath h (by decide) (by decide)

theorem head_ne_slash_of_checkImportPath {p : String}
    (h : checkImportPath p = true) : p.data.head? ≠ some '/' := by
  intro hh
  cases hd : p.data with
  | nil => rw [hd] at hh; cases hh
  | cons x xs =>
    rw [hd] at hh
    simp only [List.head?_cons, Option.some.injEq] at hh
    subst hh
    rw [checkImportPath, hd] at h
    simp only [goSplit, if_pos rfl, List.all_cons, Bool.and_eq_true] at h
    simp at h

theorem getLast_ne_slash_of_checkImportPath {p : String}
    (h : checkImportPath p = true) : p.data.getLast? ≠ some '/' := by
  intro hl
  have hne : p.data ≠ [] := by
    intro hnil; rw [hnil] at hl; cases hl
  have hdec : p.data = p.data.dropLast ++ ['/'] := by
    conv_lhs => rw [← List.dropLast_append_getLast hne]
    rw [List.getLast?_eq_getLast _ hne, Option.some.injEq] at hl
    rw [hl]
  rw [checkImportPath, hdec, goSplit_append_sep] at h
  simp only [List.all_append, Bool.and_eq_true, List.all_cons, List.all_nil,
    List.isEmpty_nil] at h
  simp at h

theorem data_ne_nil_of_checkImportPath {p : String}
    (h : checkImportPath p = true) : p.data ≠ [] := by
  intro hnil
  rw [checkImportPath, hnil] at h
  simp [goSplit] at h

theorem trims_eq_self_of_checkImportPath {p : String}
    (h : checkImportPath p = true) :
    trimTrailSlash (trimLeadSlash p.data) = p.data := by
  rw [trimLeadSlash_eq_self (head_ne_slash_of_checkImportPath h),
    trimTrailSlash_eq_self (getLast_ne_slash_of_checkImportPath h)]

/-- The modelled evaluator reproduces every row of the repository's own
test `TestLicensesAreRedistributable`. -/
theorem licensesAreRedistributableMatchesTests :
    licenseTestTable.all
      (fun row => licensesAreRedistributable testAllow row.1 == row.2) =
    true := by decide

/-- C1 (counterexample): the claim's rule — every directory with records
compliant, and some directory nonempty — holds of the record set whose
only record is the allow-listed `MIT` license in the non-root directory
`bar`, yet the evaluator returns `false` on it, exactly as the
repository's test row "no redistributable license at root" demands. So
the claimed equivalence, and in particular its final clause, fails at
this input. -/
theorem claimC1Counterexample :
    specRedistributable testAllow [⟨"MIT", "bar/LICENSE"⟩] = true ∧
    testAllow "MIT" = true ∧
    licenseDir "bar/LICENSE" ≠ "." ∧
    licensesAreRedistributable testAllow [⟨"MIT", "bar/LICENSE"⟩] = false := by
  decide

/-- C1 (amended): for every allow-list and every list of license records,
the evaluator returns `true` iff every directory that contains at least
one record contains at least one record whose type is on the allow-list,
AND the root directory contains at least one record (hence, the record
set whose only record is an allow-listed license in a non-root directory
is NOT redistributable). -/
theorem claimC1Amended (allow : String → Bool) (ls : List LicenseInfo) :
    licensesAreRedistributable allow ls = true ↔
      ((∀ l ∈ ls, ∃ l2 ∈ ls,
          licenseDir l2.filePath = licenseDir l.filePath ∧
          allow l2.type = true) ∧
        ∃ l ∈ ls, licenseDir l.filePath = ".") := by
  simp [licensesAreRedistributable, List.all_eq_true, List.any_eq_true,
    Bool.and_eq_true, beq_iff_eq]

/-- C2: the evaluator returns `false` on the empty record list, `true` on
a lone `MIT` license at the root, `false` when an `AGPL-3.0` license sits
alone in the `sub` directory next to a root `MIT`, and `true` when both
directories hold `MIT`; here `MIT` is on the allow-list and `AGPL-3.0` is
not. -/
theorem claimC2Evaluations :
    testAllow "MIT" = true ∧ testAllow "AGPL-3.0" = false ∧
    licensesAreRedistributable testAllow [] = false ∧
    licensesAreRedistributable testAllow [⟨"MIT", "LICENSE"⟩] = true ∧
    licensesAreRedistributable testAllow
      [⟨"MIT", "LICENSE"⟩, ⟨"AGPL-3.0", "sub/LICENSE"⟩] = false ∧
    licensesAreRedistributable testAllow
      [⟨"MIT", "LICENSE"⟩, ⟨"MIT", "sub/LICENSE"⟩] = true := by
  decide

theorem stdlibOverride_pkgPath (r : ResolvedPath) :
    (stdlibOverride r).pkgPath = r.pkgPath := by
  rw [stdlibOverride]; split <;> rfl

theorem stdlibOverride_version (r : ResolvedPath) :
    (stdlibOverride r).version = r.version := by
  rw [stdlibOverride]; split <;> rfl

theorem stdlibOverride_modulePath (r : ResolvedPath) :
    (stdlibOverride r).modulePath =
      if inStdLib r.pkgPath then stdlibModulePath else r.modulePath := by
  rw [stdlibOverride]; split <;> simp_all

/-! ### Lemmas connecting `breakAt`, `takeWhile` and `inStdLib` -/

theorem not_mem_of_breakAt_none {c : Char} {s : List Char}
    (h : breakAt c s = none) : c ∉ s := by
  induction s with
  | nil => simp
  | cons x xs ih =>
    simp only [breakAt] at h
    split at h
    · cases h
    · rename_i hx
      simp only [List.mem_cons, not_or]
      refine ⟨fun hc => hx hc.symm, ?_⟩
      cases hb : breakAt c xs with
      | none => exact ih hb
      | some pr => rw [hb] at h; cases h

theorem eq_of_breakAt_some {c : Char} {s pre post : List Char}
    (h : breakAt c s = some (pre, post)) :
    s = pre ++ c :: post ∧ c ∉ pre := by
  induction s generalizing pre with
  | nil => cases h
  | cons x xs ih =>
    simp only [breakAt] at h
    split at h
    · rename_i hx
      subst hx
      cases h
      exact ⟨rfl, by simp⟩
    · rename_i hx
      cases hb : breakAt c xs with
      | none => rw [hb] at h; cases h
      | some pr =>
        rw [hb] at h
        cases pr with
        | mk p q =>
          cases h
          obtain ⟨hs, hp⟩ := ih hb
          exact ⟨by rw [hs]; rfl,
            by simp only [List.mem_cons, not_or]
               exact ⟨fun hc => hx hc.symm, hp⟩⟩

theorem takeWhile_eq_self_of_not_mem {c : Char} {s : List Char}
    (h : c ∉ s) : (s.takeWhile fun x => x != c) = s := by
  induction s with
  | nil => rfl
  | cons x xs ih =>
    simp only [List.mem_cons, not_or] at h
    simp only [List.takeWhile_cons]
    rw [if_pos (by simp [bne_iff_ne]; exact fun hc => h.1 hc.symm),
      ih h.2]

theorem takeWhile_append_sep {c : Char} {pre : List Char} (post : List Char)
    (h : c ∉ pre) : ((pre ++ c :: post).takeWhile fun x => x != c) = pre := by
  induction pre with
  | nil => simp [List.takeWhile_cons]
  | cons x xs ih =>
    simp only [List.mem_cons, not_or] at h
    simp only [List.cons_append, List.takeWhile_cons]
    rw [if_pos (by simp [bne_iff_ne]; exact fun hc => h.1 hc.symm),
      ih h.2]

/-- `inStdLib` examines exactly the first slash-separated segment of the
path: it holds iff that segment contains no dot. -/
theorem inStdLib_eq_firstSegment (p : String) :
    inStdLib p = !((p.data.takeWhile fun c => c != '/').contains '.') := by
  rw [inStdLib]
  cases hb : breakAt '/' p.data with
  | none =>
    rw [takeWhile_eq_self_of_not_mem (not_mem_of_breakAt_none hb)]
  | some pr =>
    cases pr with
    | mk pre post =>
      obtain ⟨hs, hpre⟩ := eq_of_breakAt_some hb
      conv_rhs => rw [hs]
      rw [takeWhile_append_sep post hpre]

/-- C4 (counterexample): on `"/a/b@v1.2.3/c"` the parser does not return
module path `"a/b"`, and on `"/a/b@v1.2.3"` it does not return the
unknown-module sentinel: the first segment `a` of the package path
contains no dot, so the standard-library override of
`internal/frontend/details.go` replaces the module path with the
standard-library sentinel in both cases. -/
theorem claimC4Counterexample :
    parseDetailsURLPath "/a/b@v1.2.3/c" =
      some ⟨"a/b/c", stdlibModulePath, "v1.2.3"⟩ ∧
    stdlibModulePath ≠ "a/b" ∧
    parseDetailsURLPath "/a/b@v1.2.3" =
      some ⟨"a/b", stdlibModulePath, "v1.2.3"⟩ ∧
    stdlibModulePath ≠ unknownModulePath := by
  decide

/-- C4 (amended): `parseDetailsURLPath "/a/b@v1.2.3/c"` returns package
path `"a/b/c"`, the standard-library module path (the override applies,
since the first segment `a` contains no dot, clobbering the structurally
determined `"a/b"`), and version `"v1.2.3"`; and
`parseDetailsURLPath "/a/b@v1.2.3"` (no suffix) returns package path
`"a/b"`, again the standard-library module path (clobbering the
unknown-module sentinel), and version `"v1.2.3"`. -/
theorem claimC4Amended :
    parseDetailsURLPath "/a/b@v1.2.3/c" =
      some ⟨"a/b/c", stdlibModulePath, "v1.2.3"⟩ ∧
    parseDetailsURLPathBase "/a/b@v1.2.3/c" =
      some ⟨"a/b/c", "a/b", "v1.2.3"⟩ ∧
    parseDetailsURLPath "/a/b@v1.2.3" =
      some ⟨"a/b", stdlibModulePath, "v1.2.3"⟩ ∧
    parseDetailsURLPathBase "/a/b@v1.2.3" =
      some ⟨"a/b", unknownModulePath, "v1.2.3"⟩ := by
  decide

/-- C5 (counterexample): `"/fmt"` is a well-formed URL path containing no
`@`, yet the parser returns the standard-library module path, not the
unknown-module sentinel: the override clobbers it. -/
theorem claimC5Counterexample :
    '@' ∉ "/fmt".data ∧
    parseDetailsURLPath "/fmt" = some ⟨"fmt", stdlibModulePath, latestVersion⟩ ∧
    stdlibModulePath ≠ unknownModulePath := by
  decide

/-- C5 (amended): for every URL path containing no `@` on which
`parseDetailsURLPath` succeeds, the version is the latest sentinel, and
the module path is the unknown-module sentinel exactly when the package
path is not claimed by the standard-library heuristic (first segment
containing a dot); otherwise it is the standard-library module path. -/
theorem claimC5Amended (p : String) (r : ResolvedPath)
    (hat : '@' ∉ p.data) (h : parseDetailsURLPath p = some r) :
    r.version = latestVersion ∧
    r.modulePath =
      (if inStdLib r.pkgPath then stdlibModulePath else unknownModulePath) := by
  rw [parseDetailsURLPath, parseDetailsURLPathBase,
    breakAt_none_of_not_mem hat] at h
  by_cases hc : checkImportPath ⟨trimTrailSlash (trimLeadSlash p.data)⟩ = true
  · rw [if_pos hc, Option.map_some'] at h
    injection h with h
    subst h
    rw [stdlibOverride_version, stdlibOverride_pkgPath,
      stdlibOverride_modulePath]
    exact ⟨rfl, rfl⟩
  · rw [if_neg hc] at h
    cases h

/-- C5 (witness): instantiating the amended claim at
`"/github.com/x/y"`, whose first segment contains a dot, yields the
unknown-module sentinel and the latest version. -/
theorem claimC5Witness :
    (⟨"github.com/x/y", unknownModulePath, latestVersion⟩ :
        ResolvedPath).version = latestVersion ∧
    (⟨"github.com/x/y", unknownModulePath, latestVersion⟩ :
        ResolvedPath).modulePath =
      (if inStdLib (⟨"github.com/x/y", unknownModulePath, latestVersion⟩ :
          ResolvedPath).pkgPath
        then stdlibModulePath else unknownModulePath) :=
  claimC5Amended "/github.com/x/y"
    ⟨"github.com/x/y", unknownModulePath, latestVersion⟩
    (by decide) (by decide)

/-- C6: for every successfully parsed URL path, when the first
slash-separated segment of the returned package path contains no `.` the
returned module path is the standard-library module path, overriding
whatever the earlier parsing steps (`parseDetailsURLPathBase`) computed;
and when the first segment does contain a `.`, the module path is exactly
the one the earlier steps computed — not forced to the standard-library
sentinel. -/
theorem claimC6StdlibOverride (p : String) (r0 r : ResolvedPath)
    (hb : parseDetailsURLPathBase p = some r0)
    (h : parseDetailsURLPath p = some r) :
    (((r.pkgPath.data.takeWhile fun c => c != '/').contains '.') = false →
      r.modulePath = stdlibModulePath) ∧
    (((r.pkgPath.data.takeWhile fun c => c != '/').contains '.') = true →
      r.modulePath = r0.modulePath) := by
  rw [parseDetailsURLPath, hb, Option.map_some'] at h
  injection h with h
  subst h
  rw [stdlibOverride_pkgPath, stdlibOverride_modulePath,
    inStdLib_eq_firstSegment]
  constructor
  · intro hdot
    rw [hdot]
    simp
  · intro hdot
    rw [hdot]
    simp

/-- C3: for every path and every non-latest version, whenever
`fetchPackageOrModule` performs its first lookup (the call list is
nonempty) and that lookup reports not-found, then: if the retry at the
latest sentinel succeeds the result is `303 See Other` with a non-nil
error page, and if the retry fails for any reason the result is
`404 Not Found` with a nil page. -/
theorem claimC3RetryLatest (ns path version : String)
    (exc : Except Unit Bool) (get : String → Option GetErr)
    (h1 : version ≠ latestVersion)
    (h2 : (fetchPackageOrModule ns path version exc get).calls ≠ [])
    (h3 : get version = some GetErr.notFound) :
    (get latestVersion = none →
      (fetchPackageOrModule ns path version exc get).code = 303 ∧
      (fetchPackageOrModule ns path version exc get).epage ≠ none) ∧
    (∀ e, get latestVersion = some e →
      (fetchPackageOrModule ns path version exc get).code = 404 ∧
      (fetchPackageOrModule ns path version exc get).epage = none) := by
  unfold fetchPackageOrModule at h2 ⊢
  split at h2
  · exact absurd rfl h2
  · rename_i hval
    rw [if_neg hval]
    cases exc with
    | error u => exact absurd rfl h2
    | ok b =>
      cases b with
      | true => exact absurd rfl h2
      | false =>
        rw [h3, if_neg h1]
        constructor
        · intro hl
          rw [hl]
          exact ⟨rfl, by simp⟩
        · intro e hl
          rw [hl]
          exact ⟨rfl, rfl⟩

/-- C3 (witness): at path `a.com/b`, requested version `v1.2.3`, with the
exclusion check negative and `getSample` as lookup, the result is
`303 See Other` with an error page. -/
theorem claimC3Witness :
    (fetchPackageOrModule "pkg" "a.com/b" "v1.2.3"
        (Except.ok false) getSample).code = 303 ∧
    (fetchPackageOrModule "pkg" "a.com/b" "v1.2.3"
        (Except.ok false) getSample).epage ≠ none :=
  (claimC3RetryLatest "pkg" "a.com/b" "v1.2.3" (Except.ok false) getSample
    (by decide) (by decide) (by decide)).1 (by decide)

/-- C7 (counterexample): for the invalid (non-semver, non-latest) version
`"1.0"`, an excluded path does NOT produce `404 Not Found` with a nil
payload: version validation runs before the exclusion check, so the
result is `400 Bad Request` with an error page — refuting the claim's
universal quantification over every version. -/
theorem claimC7Counterexample :
    semverIsValid "1.0" = false ∧
    (fetchPackageOrModule "pkg" "a.com/b" "1.0" (Except.ok true)
        (fun _ => some GetErr.notFound)).code = 400 ∧
    (fetchPackageOrModule "pkg" "a.com/b" "1.0" (Except.ok true)
        (fun _ => some GetErr.notFound)).epage ≠ none := by
  decide

/-- C7 (amended): for every path and every version that survives
validation (the latest sentinel or a valid semantic version), if the
exclusion predicate reports the path excluded then `fetchPackageOrModule`
returns `404 Not Found` with a nil payload without invoking the lookup
function, and this (status, payload) pair is identical to the one for a
non-excluded path (any path) whose lookups all fail with not-found: the
caller cannot distinguish an excluded path from an absent one. -/
theorem claimC7ExclusionHiding (ns path path2 version : String)
    (get : String → Option GetErr)
    (hv : version = latestVersion ∨ semverIsValid version = true) :
    (fetchPackageOrModule ns path version (Except.ok true) get).code = 404 ∧
    (fetchPackageOrModule ns path version (Except.ok true) get).epage =
      none ∧
    (fetchPackageOrModule ns path version (Except.ok true) get).calls =
      [] ∧
    ((fetchPackageOrModule ns path version (Except.ok true) get).code,
      (fetchPackageOrModule ns path version (Except.ok true) get).epage) =
    ((fetchPackageOrModule ns path2 version (Except.ok false)
        (fun _ => some GetErr.notFound)).code,
      (fetchPackageOrModule ns path2 version (Except.ok false)
        (fun _ => some GetErr.notFound)).epage) := by
  have hval : ¬(version ≠ latestVersion ∧ semverIsValid version = false) := by
    rcases hv with hl | hs
    · exact fun hc => hc.1 hl
    · exact fun hc => by rw [hs] at hc; cases hc.2
  unfold fetchPackageOrModule
  rw [if_neg hval, if_neg hval]
  refine ⟨rfl, rfl, rfl, ?_⟩
  by_cases hl : version = latestVersion
  · subst hl
    rfl
  · rw [if_neg hl, if_neg hl]

/-- C7 (witness): instantiating at the valid version `v1.0.0`:
an excluded `a.com/b` and an absent `c.org/d` both yield
`404 Not Found` with no payload. -/
theorem claimC7Witness :
    (fetchPackageOrModule "pkg" "a.com/b" "v1.0.0" (Except.ok true)
        (fun _ => none)).code = 404 ∧
    (fetchPackageOrModule "pkg" "a.com/b" "v1.0.0" (Except.ok true)
        (fun _ => none)).epage = none ∧
    (fetchPackageOrModule "pkg" "a.com/b" "v1.0.0" (Except.ok true)
        (fun _ => none)).calls = [] ∧
    ((fetchPackageOrModule "pkg" "a.com/b" "v1.0.0" (Except.ok true)
        (fun _ => none)).code,
      (fetchPackageOrModule "pkg" "a.com/b" "v1.0.0" (Except.ok true)
        (fun _ => none)).epage) =
    ((fetchPackageOrModule "pkg" "c.org/d" "v1.0.0" (Except.ok false)
        (fun _ => some GetErr.notFound)).code,
      (fetchPackageOrModule "pkg" "c.org/d" "v1.0.0" (Except.ok false)
        (fun _ => some GetErr.notFound)).epage) :=
  claimC7ExclusionHiding "pkg" "a.com/b" "c.org/d" "v1.0.0"
    (fun _ => none) (Or.inr (by decide))

/-- C8: when the requested tab name is absent from both tab registries,
the package page handler selects `doc` if the package is redistributable
and `subdirectories` otherwise, and the module page handler selects
`readme` unconditionally. -/
theorem claimC8TabDefaults (tab : String) (redistributable : Bool)
    (hp : packageTabLookup tab = none)
    (hm : moduleTabLookup tab = none) :
    choosePackageTab tab redistributable =
      (if redistributable then "doc" else "subdirectories") ∧
    chooseModuleTab tab = "readme" := by
  rw [choosePackageTab, chooseModuleTab, hp, hm]
  exact ⟨rfl, rfl⟩

/-- C8 (witness): the unregistered tab name `overview` defaults to
`subdirectories` for a non-redistributable package and to `readme` for a
module. -/
theorem claimC8Witness :
    choosePackageTab "overview" false =
      (if false then "doc" else "subdirectories") ∧
    chooseModuleTab "overview" = "readme" :=
  claimC8TabDefaults "overview" false (by decide) (by decide)

/-- C9 (counterexample): the URL path `/std@latest` — `/std@<version>`
at the latest sentinel literal — is NOT routed to the module-details
handler: the code tests for the prefix `/std@v`, and `latest` does not
begin with `v`. -/
theorem claimC9Counterexample :
    handlePackageDetailsRoute ("/std@" ++ latestVersion) ≠
      PackageDetailsRoute.moduleDetails := by
  decide

/-- C9 (amended): the URL path `/std`, and every URL path beginning with
`/std@v` — hence `/std@<version>` for every version string beginning
with `v`, which covers every valid semantic version but not the latest
sentinel literal — is routed to the module-details handler before the
general path parsing applies. -/
theorem claimC9Amended :
    handlePackageDetailsRoute "/std" = PackageDetailsRoute.moduleDetails ∧
    ∀ s : String, goHasPre "/std@v".data s.data = true →
      handlePackageDetailsRoute s = PackageDetailsRoute.moduleDetails := by
  constructor
  · decide
  · intro s hs
    rw [goHasPre, Option.isSome_iff_exists] at hs
    obtain ⟨rest, hrest⟩ := hs
    have hne : ¬s = "/" := by
      intro hcontra
      subst hcontra
      rw [show stripLead "/std@v".data "/".data = (none : Option (List Char))
        from rfl] at hrest
      cases hrest
    rw [handlePackageDetailsRoute, if_neg hne,
      if_pos (Or.inr (by rw [goHasPre, hrest]; rfl))]

/-- C9 (witness): `/std@v1.2.3` is routed to the module-details
handler. -/
theorem claimC9Witness :
    handlePackageDetailsRoute "/std@v1.2.3" =
      PackageDetailsRoute.moduleDetails :=
  claimC9Amended.2 "/std@v1.2.3" (by decide)

/-! ## Round trip: `parseDetailsURLPath` after `constructPackageURL` -/

theorem parse_pkg_version_of_base {u : String} {r : ResolvedPath}
    (h : parseDetailsURLPathBase u = some r) :
    (parseDetailsURLPath u).map (fun x => (x.pkgPath, x.version)) =
      some (r.pkgPath, r.version) := by
  rw [parseDetailsURLPath, h]
  simp only [Option.map_some', stdlibOverride_pkgPath, stdlibOverride_version]

theorem parseBase_at_eq {u : String} {a b : List Char}
    (h : breakAt '@' u.data = some (a, b)) :
    parseDetailsURLPathBase u =
      parseWithVersion (trimTrailSlash (trimLeadSlash a)) b := by
  unfold parseDetailsURLPathBase
  rw [h]

theorem trims_cons_slash {s : List Char}
    (h : s.getLast? ≠ some '/') :
    trimTrailSlash (trimLeadSlash ('/' :: s)) = s := by
  have h1 : trimLeadSlash ('/' :: s) = s := by
    simp [trimLeadSlash]
  rw [h1, trimTrailSlash_eq_self h]

theorem parseWithVersion_nosuffix (base : List Char) (v : String)
    (hslash : '/' ∉ v.data) (hc : checkImportPath ⟨base⟩ = true) :
    parseWithVersion base v.data =
      some ⟨⟨base⟩, unknownModulePath, ⟨v.data⟩⟩ := by
  unfold parseWithVersion
  rw [goSplit_no_sep hslash]
  simp only [List.headI, List.tail_cons, goJoin]
  rw [if_pos (Or.inl trivial), if_pos hc]

theorem parseWithVersion_suffix (base : List Char) (v : String)
    (r : List Char) (hslash : '/' ∉ v.data) (hr : r ≠ [])
    (hvne : (⟨v.data⟩ : String) ≠ latestVersion)
    (hc : checkImportPath ⟨base ++ '/' :: r⟩ = true) :
    parseWithVersion base (v.data ++ '/' :: r) =
      some ⟨⟨base ++ '/' :: r⟩, ⟨base⟩, ⟨v.data⟩⟩ := by
  unfold parseWithVersion
  rw [goSplit_cons_sep r hslash]
  simp only [List.headI, List.tail_cons]
  rw [goJoin_goSplit]
  rw [if_neg (not_or.mpr ⟨hr, hvne⟩), if_pos hc]

theorem parseBase_slash_pkg (p : String) (hp : checkImportPath p = true) :
    parseDetailsURLPathBase ("/" ++ p) =
      some ⟨p, unknownModulePath, latestVersion⟩ := by
  have hdata : ("/" ++ p).data = '/' :: p.data := by
    rw [String.data_append]
    rfl
  have hat : '@' ∉ '/' :: p.data := by
    simp only [List.mem_cons, not_or]
    exact ⟨by decide, at_not_mem_of_checkImportPath hp⟩
  unfold parseDetailsURLPathBase
  rw [hdata, breakAt_none_of_not_mem hat,
    trims_cons_slash (getLast_ne_slash_of_checkImportPath hp),
    if_pos (show checkImportPath ⟨p.data⟩ = true from hp)]

theorem parseBase_pkg_at_version (p v : String)
    (hp : checkImportPath p = true) (hslash : '/' ∉ v.data) :
    parseDetailsURLPathBase ("/" ++ p ++ "@" ++ v) =
      some ⟨p, unknownModulePath, v⟩ := by
  have hdata : ("/" ++ p ++ "@" ++ v).data =
      ('/' :: p.data) ++ '@' :: v.data := by
    rw [String.data_append, String.data_append, String.data_append,
      List.append_assoc]
    rfl
  have hat : '@' ∉ '/' :: p.data := by
    simp only [List.mem_cons, not_or]
    exact ⟨by decide, at_not_mem_of_checkImportPath hp⟩
  have hb : breakAt '@' ("/" ++ p ++ "@" ++ v).data =
      some ('/' :: p.data, v.data) := by
    rw [hdata]
    exact breakAt_append v.data hat
  rw [parseBase_at_eq hb,
    trims_cons_slash (getLast_ne_slash_of_checkImportPath hp),
    parseWithVersion_nosuffix p.data v hslash
      (show checkImportPath ⟨p.data⟩ = true from hp)]

theorem parseBase_mod_at_version_suffix (m v : String) (r : List Char)
    (hm : checkImportPath m = true) (hslash : '/' ∉ v.data) (hr : r ≠ [])
    (hvne : v ≠ latestVersion)
    (hc : checkImportPath ⟨m.data ++ '/' :: r⟩ = true) :
    parseDetailsURLPathBase ("/" ++ m ++ "@" ++ v ++ "/" ++ (⟨r⟩ : String)) =
      some ⟨⟨m.data ++ '/' :: r⟩, m, v⟩ := by
  have hdata : ("/" ++ m ++ "@" ++ v ++ "/" ++ (⟨r⟩ : String)).data =
      ('/' :: m.data) ++ '@' :: (v.data ++ '/' :: r) := by
    rw [String.data_append, String.data_append, String.data_append,
      String.data_append, String.data_append]
    simp only [List.append_assoc, List.cons_append]
    rfl
  have hat : '@' ∉ '/' :: m.data := by
    simp only [List.mem_cons, not_or]
    exact ⟨by decide, at_not_mem_of_checkImportPath hm⟩
  have hb : breakAt '@' ("/" ++ m ++ "@" ++ v ++ "/" ++ (⟨r⟩ : String)).data =
      some ('/' :: m.data, v.data ++ '/' :: r) := by
    rw [hdata]
    exact breakAt_append _ hat
  rw [parseBase_at_eq hb,
    trims_cons_slash (getLast_ne_slash_of_checkImportPath hm),
    parseWithVersion_suffix m.data v r hslash hr hvne hc]

/-- C10: for every well-formed package path `p`, module path `m` that is
`p` itself, the standard-library module path, or such that `m ++ "/"` is
a proper prefix of `p`, and version `v` that is the latest sentinel or a
valid semantic version containing no `/`, parsing the constructed
package URL succeeds and recovers exactly `p` as the package path and `v`
as the version. -/
theorem claimC10RoundTrip (p m v : String)
    (hp : checkImportPath p = true) (hm : checkImportPath m = true)
    (hrel : m = p ∨ m = stdlibModulePath ∨
      ∃ r, r ≠ [] ∧ p.data = m.data ++ '/' :: r)
    (hv : v = latestVersion ∨
      (semverIsValid v = true ∧ '/' ∉ v.data)) :
    (parseDetailsURLPath (constructPackageURL p m v)).map
      (fun x => (x.pkgPath, x.version)) = some (p, v) := by
  rcases hv with hv | ⟨hsem, hslash⟩
  · subst hv
    rw [constructPackageURL, if_pos rfl,
      parse_pkg_version_of_base (parseBase_slash_pkg p hp)]
  · have hvne : v ≠ latestVersion := by
      intro hcontra
      rw [hcontra, show semverIsValid latestVersion = false from by decide]
        at hsem
      cases hsem
    rw [constructPackageURL, if_neg hvne]
    by_cases hcond : p = m ∨ m = stdlibModulePath
    · rw [if_pos hcond,
        parse_pkg_version_of_base (parseBase_pkg_at_version p v hp hslash)]
    · rw [if_neg hcond]
      rcases hrel with hmp | hstd | ⟨r, hr, hpr⟩
      · exact absurd (Or.inl hmp.symm) hcond
      · exact absurd (Or.inr hstd) hcond
      · have htrimlead : (⟨goTrimLead (m.data ++ ['/']) p.data⟩ : String) =
            (⟨r⟩ : String) := by
          rw [goTrimLead, hpr,
            show m.data ++ '/' :: r = (m.data ++ ['/']) ++ r by simp,
            stripLead_append]
          rfl
        rw [htrimlead]
        have hmdata : (⟨m.data ++ '/' :: r⟩ : String) = p :=
          String.ext hpr.symm
        have hc : checkImportPath ⟨m.data ++ '/' :: r⟩ = true := by
          rw [hmdata]; exact hp
        rw [parse_pkg_version_of_base
          (parseBase_mod_at_version_suffix m v r hm hslash hr hvne hc),
          hmdata]

/-- C10 (witness): the round trip at package `a.com/b/c` inside module
`a.com/b` at version `v1.2.3` recovers the package path and version. -/
theorem claimC10Witness :
    (parseDetailsURLPath (constructPackageURL "a.com/b/c" "a.com/b"
        "v1.2.3")).map (fun x => (x.pkgPath, x.version)) =
      some ("a.com/b/c", "v1.2.3") :=
  claimC10RoundTrip "a.com/b/c" "a.com/b" "v1.2.3" (by decide) (by decide)
    (Or.inr (Or.inr ⟨['c'], by decide, by decide⟩))
    (Or.inr ⟨by decide, by decide⟩)

/-- C6 (witness): instantiating at `"/fmt"`: the single dot-free segment
`fmt` makes the parser override the unknown-module sentinel computed by
the base parse with the standard-library module path. -/
theorem claimC6Witness :
    (⟨"fmt", stdlibModulePath, latestVersion⟩ : ResolvedPath).modulePath =
      stdlibModulePath :=
  (claimC6StdlibOverride "/fmt" ⟨"fmt", unknownModulePath, latestVersion⟩
    ⟨"fmt", stdlibModulePath, latestVersion⟩ (by decide) (by decide)).1
    (by decide)

end PkgSite
